import Mathlib

/-!
Verification development for the `strbin` string classifier
(`src/main.rs`).  The program reads lines from stdin, runs an ordered
battery of regex detectors and whole-line heuristics over each line,
filters the resulting `(StringType, text)` candidates through a
whitelist/blacklist configuration, deduplicates the surviving texts per
kind, and renders a per-kind report.

Lines are modelled as `List Char` (the `char` sequence of a Rust
`String`).  The `regex` crate's matching is modelled by a small
leftmost-first backtracking engine over an AST (`RE`); each pattern
constant of the source is transcribed literally into that AST.
Rust's Unicode-aware `\w`/`\b`/`\d` classes are modelled by their ASCII
subsets; every theorem below only ever evaluates boundaries next to
ASCII characters, so the restriction is immaterial for the claims.
-/

namespace Strbin

/-- Text values (matched substrings and input lines) as char lists. -/
abbrev Text := List Char

/-- ASCII range test used to build character classes. -/
def between (lo hi c : Char) : Bool := decide (lo ≤ c) && decide (c ≤ hi)

/-- Class `[0-9]` (also models `\d`, ASCII subset). -/
def isDigitC (c : Char) : Bool := between '0' '9' c

/-- Class `[a-z]`. -/
def isLowerC (c : Char) : Bool := between 'a' 'z' c

/-- Class `[A-Z]`. -/
def isUpperC (c : Char) : Bool := between 'A' 'Z' c

/-- Class `[a-zA-Z]`. -/
def isAlphaC (c : Char) : Bool := isLowerC c || isUpperC c

/-- Class `[a-zA-Z0-9]`. -/
def isAlnumC (c : Char) : Bool := isDigitC c || isAlphaC c

/-- Word characters for `\b` and `\w` (ASCII subset of the regex crate's
word class). -/
def isWordChar (c : Char) : Bool := isAlnumC c || decide (c = '_')

/-- Class `[a-fA-F0-9]`, the hash/hex digit class. -/
def isHexAny (c : Char) : Bool := isDigitC c || between 'a' 'f' c || between 'A' 'F' c

/-- Class `[0-9a-f]`, the lowercase hex class of `GIT_HASH_REGEX`. -/
def isHexLower (c : Char) : Bool := isDigitC c || between 'a' 'f' c

/-- The regex class `\s`: Unicode white space (also used for Rust's
`char::is_whitespace` in `trim_start`). -/
def isWS (c : Char) : Bool :=
  let v := c.toNat
  decide (9 ≤ v ∧ v ≤ 13) || decide (v = 0x20) || decide (v = 0x85) || decide (v = 0xA0) ||
  decide (v = 0x1680) || decide (0x2000 ≤ v ∧ v ≤ 0x200A) || decide (v = 0x2028) ||
  decide (v = 0x2029) || decide (v = 0x202F) || decide (v = 0x205F) || decide (v = 0x3000)

/-- The regex `.` metacharacter: any character except a newline. -/
def isDotC (c : Char) : Bool := decide (c ≠ '\n')

/-- Regex AST.  `rep a lo hi` is the greedy counted repetition
`a{lo,hi}` (`hi = none` meaning no upper bound); `wb` is `\b`. -/
inductive RE where
  | eps
  | cls (p : Char → Bool)
  | seq (a b : RE)
  | alt (a b : RE)
  | rep (a : RE) (lo : Nat) (hi : Option Nat)
  | wb

/-- Literal character. -/
def rch (c : Char) : RE := RE.cls (fun d => decide (d = c))

/-- Case-insensitive literal character, for `(?i)` patterns (ASCII
folding). -/
def ich (c : Char) : RE := RE.cls (fun d => decide (d.toLower = c.toLower))

/-- Sequence of several regexes. -/
def cat (l : List RE) : RE := l.foldr RE.seq RE.eps

/-- Literal string. -/
def lit (cs : List Char) : RE := cat (cs.map rch)

/-- Case-insensitive literal string. -/
def liti (cs : List Char) : RE := cat (cs.map ich)

/-- First-to-last prioritized alternation `a|b|...`. -/
def alts : List RE → RE
  | [] => RE.eps
  | [r] => r
  | r :: rest => RE.alt r (alts rest)

/-- Is the first character of the list a word character (`false` for the
empty list, which stands for the start or end of the haystack)? -/
def headIsWord : List Char → Bool
  | [] => false
  | c :: _ => isWordChar c

/-- Word boundary test.  `before` is the reversed already-consumed
prefix, `s` the rest of the haystack. -/
def atBoundary (before s : List Char) : Bool := headIsWord before != headIsWord s

/-- Decrement an optional repetition bound. -/
def decOpt : Option Nat → Option Nat
  | none => none
  | some n => some (n - 1)

/-- Fuel-indexed backtracking matcher.  For a regex `r` and position
(`before` the reversed consumed prefix, for `\b`; `s` the rest of the
haystack), it returns the lengths of the possible matches of `r` at
this position, in the order a leftmost-first (Perl-style, greedy)
backtracking engine explores them: the head of the list is the match
the regex crate reports.  The fuel only bounds the recursion depth;
every call strictly decreases `s.length + sizeOf r`, so any fuel above
that measure yields the same result (`matchFuel_canon` below) and the
`0` case is never reached from `matchRE`.  The guard `n ≤ s.length` in
the repetition case never excludes a real match (a match never consumes
more than the remaining input). -/
def matchFuel : Nat → RE → List Char → List Char → List Nat
  | 0, _, _, _ => []
  | fuel + 1, r, before, s =>
    match r with
    | .eps => [0]
    | .wb => if atBoundary before s then [0] else []
    | .cls p =>
      match s with
      | [] => []
      | c :: _ => if p c then [1] else []
    | .seq a b =>
      (matchFuel fuel a before s).flatMap (fun n =>
        (matchFuel fuel b ((s.take n).reverse ++ before) (s.drop n)).map (fun m => n + m))
    | .alt a b => matchFuel fuel a before s ++ matchFuel fuel b before s
    | .rep a lo hi =>
      if hi = some 0 then (if lo = 0 then [0] else [])
      else
        let conts := (matchFuel fuel a before s).flatMap (fun n =>
          if 0 < n ∧ n ≤ s.length then
            (matchFuel fuel (.rep a (lo - 1) (decOpt hi)) ((s.take n).reverse ++ before)
                (s.drop n)).map (fun m => n + m)
          else [])
        if lo = 0 then conts ++ [0] else conts

/-- Structural size of a regex, counting the repetition bounds (the
repetition case of `matchFuel` recurses into a regex with a smaller
lower bound and a decremented upper bound). -/
def reSize : RE → Nat
  | .eps => 1
  | .cls _ => 1
  | .wb => 1
  | .seq a b => 1 + reSize a + reSize b
  | .alt a b => 1 + reSize a + reSize b
  | .rep a lo hi => 1 + reSize a + lo + (match hi with | none => 1 | some n => 1 + n)

/-- The recursion-depth measure of a matcher call. -/
def reMeasure (r : RE) (s : List Char) : Nat := s.length + reSize r

/-- The backtracking matcher, with fuel chosen above the measure. -/
def matchRE (r : RE) (before s : List Char) : List Nat :=
  matchFuel (reMeasure r s + 1) r before s

/-- Fuel-indexed scan of `Regex::find_iter`: scan left to right, at
each position take the first (leftmost-first) match if any, emit it and
continue after it; otherwise advance one character.  An empty match
advances by one character, as the regex crate does.  The empty-input
fallback in the nonzero branch is unreachable (a match never consumes
characters the input does not have).  Any fuel above `s.length` yields
the same result. -/
def scanFuel : Nat → RE → List Char → List Char → List (List Char)
  | 0, _, _, _ => []
  | fuel + 1, r, before, s =>
    match matchRE r before s with
    | [] =>
      match s with
      | [] => []
      | c :: rest => scanFuel fuel r (c :: before) rest
    | n :: _ =>
      if n = 0 then
        match s with
        | [] => [[]]
        | c :: rest => [] :: scanFuel fuel r (c :: before) rest
      else
        match s with
        | [] => []
        | c :: rest =>
          ((c :: rest).take n) :: scanFuel fuel r (((c :: rest).take n).reverse ++ before)
            ((c :: rest).drop n)

/-- One pass of `Regex::find_iter` at a given position. -/
def scanIter (r : RE) (before s : List Char) : List (List Char) :=
  scanFuel (s.length + 1) r before s

/-- All matches of `r` in `line`, in order (the model of
`r.find_iter(line)` collecting `mat.as_str()`). -/
def findIter (r : RE) (line : List Char) : List (List Char) := scanIter r [] line

/-- The enumerated string kinds (enum `StringType` of the source). -/
inductive StringType where
  | JunkString
  | RegularString
  | IPv4String
  | IPv6String
  | PathString
  | FormatMessageString
  | SecretString
  | URLString
  | EmailString
  | UUIDString
  | MACAddressString
  | Base64String
  | HexString
  | GitHashString
  | JSONString
  | XMLString
  | TimestampString
  | SemVerString
  | CppTemplateString
  | CppExceptionString
  | CppRTTIString
  | PythonTracebackString
  | JavaStackTraceString
  | JavaScriptErrorString
  | GoPanicString
  | RustPanicString
  | SQLQueryString
  | SSHKeyString
  | MD5HashString
  | SHA1HashString
  | SHA256HashString
  | SHA512HashString
deriving DecidableEq

/-- Display name of a kind (`StringType::as_str`). -/
def StringType.as_str : StringType → String
  | .JunkString => "Junk"
  | .RegularString => "Regular"
  | .IPv4String => "IPv4"
  | .IPv6String => "IPv6"
  | .PathString => "Path"
  | .FormatMessageString => "FormatMessage"
  | .SecretString => "Secret"
  | .URLString => "URL"
  | .EmailString => "Email"
  | .UUIDString => "UUID"
  | .MACAddressString => "MACAddress"
  | .Base64String => "Base64"
  | .HexString => "Hex"
  | .GitHashString => "GitHash"
  | .JSONString => "JSON"
  | .XMLString => "XML"
  | .TimestampString => "Timestamp"
  | .SemVerString => "SemVer"
  | .CppTemplateString => "CppTemplate"
  | .CppExceptionString => "CppException"
  | .CppRTTIString => "CppRTTI"
  | .PythonTracebackString => "PythonTraceback"
  | .JavaStackTraceString => "JavaStackTrace"
  | .JavaScriptErrorString => "JavaScriptError"
  | .GoPanicString => "GoPanic"
  | .RustPanicString => "RustPanic"
  | .SQLQueryString => "SQLQuery"
  | .SSHKeyString => "SSHKey"
  | .MD5HashString => "MD5Hash"
  | .SHA1HashString => "SHA1Hash"
  | .SHA256HashString => "SHA256Hash"
  | .SHA512HashString => "SHA512Hash"

/-- Kinds disabled by default (`StringType::default_disabled_types`). -/
def StringType.default_disabled_types : List StringType :=
  [.RustPanicString, .PythonTracebackString, .JavaStackTraceString, .JavaScriptErrorString,
   .GoPanicString, .CppExceptionString, .Base64String, .HexString, .JSONString, .GitHashString]

/-- Group `cpp` (`StringType::cpp_types`). -/
def StringType.cpp_types : List StringType :=
  [.CppTemplateString, .CppExceptionString, .CppRTTIString]

/-- Group `errors` (`StringType::error_types`). -/
def StringType.error_types : List StringType :=
  [.CppExceptionString, .PythonTracebackString, .JavaStackTraceString, .JavaScriptErrorString,
   .GoPanicString, .RustPanicString]

/-- Group `network` (`StringType::network_types`). -/
def StringType.network_types : List StringType :=
  [.IPv4String, .IPv6String, .URLString, .EmailString, .MACAddressString]

/-- Group `identifiers` (`StringType::identifier_types`). -/
def StringType.identifier_types : List StringType :=
  [.UUIDString, .MACAddressString, .GitHashString]

/-- Group `data-formats` (`StringType::data_format_types`). -/
def StringType.data_format_types : List StringType :=
  [.JSONString, .XMLString, .Base64String, .HexString]

/-- All 32 kinds, in declaration order. -/
def allStringTypes : List StringType :=
  [.JunkString, .RegularString, .IPv4String, .IPv6String, .PathString, .FormatMessageString,
   .SecretString, .URLString, .EmailString, .UUIDString, .MACAddressString, .Base64String,
   .HexString, .GitHashString, .JSONString, .XMLString, .TimestampString, .SemVerString,
   .CppTemplateString, .CppExceptionString, .CppRTTIString, .PythonTracebackString,
   .JavaStackTraceString, .JavaScriptErrorString, .GoPanicString, .RustPanicString,
   .SQLQueryString, .SSHKeyString, .MD5HashString, .SHA1HashString, .SHA256HashString,
   .SHA512HashString]

/-- Class `[/\\]`. -/
def isSlashC (c : Char) : Bool := decide (c = '/') || decide (c = '\\')

/-- Class `[a-zA-Z0-9_.\-]` of `PATH_REGEX`. -/
def isPathC (c : Char) : Bool :=
  isAlnumC c || decide (c = '_') || decide (c = '.') || decide (c = '-')

/-- Class `[A-Za-z0-9_-]` of the JWT alternative of `SECRET_REGEX`. -/
def isB64UrlC (c : Char) : Bool := isAlnumC c || decide (c = '_') || decide (c = '-')

/-- Class `[A-Za-z0-9._%+-]` (email local part). -/
def isEmailLocalC (c : Char) : Bool :=
  isAlnumC c || decide (c = '.') || decide (c = '_') || decide (c = '%') ||
  decide (c = '+') || decide (c = '-')

/-- Class `[A-Za-z0-9.-]` (email domain). -/
def isEmailDomC (c : Char) : Bool := isAlnumC c || decide (c = '.') || decide (c = '-')

/-- Class `[A-Z|a-z]` (email top-level part; the source class literally
contains a pipe). -/
def isTldC (c : Char) : Bool := isUpperC c || isLowerC c || decide (c = '|')

/-- Class `[A-Za-z0-9+/]` of `BASE64_REGEX`. -/
def isB64C (c : Char) : Bool := isAlnumC c || decide (c = '+') || decide (c = '/')

/-- Class `[A-Za-z0-9+/=]` of `SSH_KEY_REGEX`. -/
def isB64EqC (c : Char) : Bool :=
  isAlnumC c || decide (c = '+') || decide (c = '/') || decide (c = '=')

/-- Class `[0-9A-Za-z-]` of the SemVer pre-release/build parts. -/
def isSemC (c : Char) : Bool := isAlnumC c || decide (c = '-')

/-- Class `[a-zA-Z0-9_]` (identifier continuation). -/
def isIdentC (c : Char) : Bool := isAlnumC c || decide (c = '_')

/-- Exactly-`n` repetition of the hash/hex digit class `[a-fA-F0-9]{n}`. -/
def hexn (n : Nat) : RE := RE.rep (RE.cls isHexAny) n (some n)

/-- Exactly-`n` repetition of `\d{n}`. -/
def dign (n : Nat) : RE := RE.rep (RE.cls isDigitC) n (some n)

/-- Subpattern `\s+`. -/
def ws1 : RE := RE.rep (RE.cls isWS) 1 none

/-- Subpattern `\w+`. -/
def w1 : RE := RE.rep (RE.cls isWordChar) 1 none

/-- Subpattern `.*`. -/
def dotStar : RE := RE.rep (RE.cls isDotC) 0 none

/-- The opening brace character (written via its code point so braces
appear nowhere in string or char literals). -/
def lbrace : Char := Char.ofNat 123

/-- The closing brace character. -/
def rbrace : Char := Char.ofNat 125

/-- Pattern `\b(?:[0-9]{1,3}\.){3}[0-9]{1,3}\b`. -/
def IPV4_REGEX : RE :=
  cat [RE.wb, RE.rep (cat [RE.rep (RE.cls isDigitC) 1 (some 3), rch '.']) 3 (some 3),
    RE.rep (RE.cls isDigitC) 1 (some 3), RE.wb]

/-- Pattern `(?i)\b(?:[0-9a-f]{0,4}:){2,7}[0-9a-f]{0,4}\b`. -/
def IPV6_REGEX : RE :=
  cat [RE.wb, RE.rep (cat [RE.rep (RE.cls isHexAny) 0 (some 4), rch ':']) 2 (some 7),
    RE.rep (RE.cls isHexAny) 0 (some 4), RE.wb]

/-- The prefix alternative `(?:[a-zA-Z]:[/\\]|/)` of `PATH_REGEX`. -/
def pathPrefix : RE := RE.alt (cat [RE.cls isAlphaC, rch ':', RE.cls isSlashC]) (rch '/')

/-- Pattern
`(?:[a-zA-Z]:[/\\]|/)(?:[a-zA-Z0-9_.\-]+[/\\])+[a-zA-Z0-9_.\-]+|(?:[a-zA-Z]:[/\\]|/)[a-zA-Z0-9_.\-]+\.[a-zA-Z0-9]+`. -/
def PATH_REGEX : RE :=
  RE.alt
    (cat [pathPrefix, RE.rep (cat [RE.rep (RE.cls isPathC) 1 none, RE.cls isSlashC]) 1 none,
      RE.rep (RE.cls isPathC) 1 none])
    (cat [pathPrefix, RE.rep (RE.cls isPathC) 1 none, rch '.', RE.rep (RE.cls isAlnumC) 1 none])

/-- Pattern `%[sdfx]|\{\}|\{[0-9]+\}`. -/
def FORMAT_REGEX : RE :=
  alts [cat [rch '%', RE.cls (fun c =>
      decide (c = 's') || decide (c = 'd') || decide (c = 'f') || decide (c = 'x'))],
    cat [rch lbrace, rch rbrace],
    cat [rch lbrace, RE.rep (RE.cls isDigitC) 1 none, rch rbrace]]

/-- Pattern
`(?:ey[A-Za-z0-9_-]{20,}\.[A-Za-z0-9_-]{20,}\.[A-Za-z0-9_-]{20,})|(?:AKIA[0-9A-Z]{16})|(?:(?:sk|pk|api|token)_[A-Za-z0-9]{32,})`. -/
def SECRET_REGEX : RE :=
  alts [
    cat [lit "ey".toList, RE.rep (RE.cls isB64UrlC) 20 none, rch '.',
      RE.rep (RE.cls isB64UrlC) 20 none, rch '.', RE.rep (RE.cls isB64UrlC) 20 none],
    cat [lit "AKIA".toList, RE.rep (RE.cls (fun c => isDigitC c || isUpperC c)) 16 (some 16)],
    cat [alts [lit "sk".toList, lit "pk".toList, lit "api".toList, lit "token".toList],
      rch '_', RE.rep (RE.cls isAlnumC) 32 none]]

/-- Pattern `(?i)\b(?:https?|ftp)://[^\s]+`. -/
def URL_REGEX : RE :=
  cat [RE.wb, RE.alt (cat [liti "http".toList, RE.rep (ich 's') 0 (some 1)]) (liti "ftp".toList),
    lit "://".toList, RE.rep (RE.cls (fun c => !(isWS c))) 1 none]

/-- Pattern `\b[A-Za-z0-9._%+-]+@[A-Za-z0-9.-]+\.[A-Z|a-z]{2,}\b`. -/
def EMAIL_REGEX : RE :=
  cat [RE.wb, RE.rep (RE.cls isEmailLocalC) 1 none, rch '@', RE.rep (RE.cls isEmailDomC) 1 none,
    rch '.', RE.rep (RE.cls isTldC) 2 none, RE.wb]

/-- Pattern `\b[0-9a-fA-F]{8}-[0-9a-fA-F]{4}-[0-9a-fA-F]{4}-[0-9a-fA-F]{4}-[0-9a-fA-F]{12}\b`. -/
def UUID_REGEX : RE :=
  cat [RE.wb, hexn 8, rch '-', hexn 4, rch '-', hexn 4, rch '-', hexn 4, rch '-', hexn 12, RE.wb]

/-- Pattern `\b(?:[0-9a-fA-F]{2}[:-]){5}[0-9a-fA-F]{2}\b`. -/
def MAC_REGEX : RE :=
  cat [RE.wb,
    RE.rep (cat [hexn 2, RE.cls (fun c => decide (c = ':') || decide (c = '-'))]) 5 (some 5),
    hexn 2, RE.wb]

/-- Pattern `\b[A-Za-z0-9+/]{20,}={0,2}\b`. -/
def BASE64_REGEX : RE :=
  cat [RE.wb, RE.rep (RE.cls isB64C) 20 none, RE.rep (rch '=') 0 (some 2), RE.wb]

/-- Pattern `\b(?:0x)?[0-9a-fA-F]{16,}\b`. -/
def HEX_REGEX : RE :=
  cat [RE.wb, RE.rep (lit "0x".toList) 0 (some 1), RE.rep (RE.cls isHexAny) 16 none, RE.wb]

/-- Pattern `\b[0-9a-f]{7,40}\b`. -/
def GIT_HASH_REGEX : RE := cat [RE.wb, RE.rep (RE.cls isHexLower) 7 (some 40), RE.wb]

/-- Pattern `\d{4}-\d{2}-\d{2}[T\s]\d{2}:\d{2}:\d{2}`. -/
def TIMESTAMP_REGEX : RE :=
  cat [dign 4, rch '-', dign 2, rch '-', dign 2, RE.cls (fun c => decide (c = 'T') || isWS c),
    dign 2, rch ':', dign 2, rch ':', dign 2]

/-- Pattern `\b\d+\.\d+\.\d+(?:-[0-9A-Za-z-]+)?(?:\+[0-9A-Za-z-]+)?\b`. -/
def SEMVER_REGEX : RE :=
  cat [RE.wb, RE.rep (RE.cls isDigitC) 1 none, rch '.', RE.rep (RE.cls isDigitC) 1 none,
    rch '.', RE.rep (RE.cls isDigitC) 1 none,
    RE.rep (cat [rch '-', RE.rep (RE.cls isSemC) 1 none]) 0 (some 1),
    RE.rep (cat [rch '+', RE.rep (RE.cls isSemC) 1 none]) 0 (some 1), RE.wb]

/-- Pattern `(?:std::|boost::)[a-zA-Z_][a-zA-Z0-9_]*<.*>`. -/
def CPP_TEMPLATE_REGEX : RE :=
  cat [RE.alt (lit "std::".toList) (lit "boost::".toList),
    RE.cls (fun c => isAlphaC c || decide (c = '_')), RE.rep (RE.cls isIdentC) 0 none,
    rch '<', dotStar, rch '>']

/-- Pattern `_Z[NKL][0-9a-zA-Z_]+`. -/
def CPP_MANGLED_REGEX : RE :=
  cat [lit "_Z".toList,
    RE.cls (fun c => decide (c = 'N') || decide (c = 'K') || decide (c = 'L')),
    RE.rep (RE.cls isIdentC) 1 none]

/-- Pattern
`(?i)\b(?:SELECT\s+(?:\*|\w+).*\s+FROM\s+\w+|INSERT\s+INTO\s+\w+.*VALUES|UPDATE\s+\w+\s+SET|DELETE\s+FROM\s+\w+|CREATE\s+TABLE\s+\w+|DROP\s+TABLE\s+\w+)`. -/
def SQL_REGEX : RE :=
  cat [RE.wb, alts [
    cat [liti "SELECT".toList, ws1, RE.alt (rch '*') w1, dotStar, ws1, liti "FROM".toList,
      ws1, w1],
    cat [liti "INSERT".toList, ws1, liti "INTO".toList, ws1, w1, dotStar, liti "VALUES".toList],
    cat [liti "UPDATE".toList, ws1, w1, ws1, liti "SET".toList],
    cat [liti "DELETE".toList, ws1, liti "FROM".toList, ws1, w1],
    cat [liti "CREATE".toList, ws1, liti "TABLE".toList, ws1, w1],
    cat [liti "DROP".toList, ws1, liti "TABLE".toList, ws1, w1]]]

/-- Pattern
`(?:ssh-(?:rsa|dss|ed25519|ecdsa)\s+[A-Za-z0-9+/=]{50,}|-----BEGIN\s+(?:RSA|DSA|EC|OPENSSH)\s+(?:PRIVATE|PUBLIC)\s+KEY-----)`. -/
def SSH_KEY_REGEX : RE :=
  RE.alt
    (cat [lit "ssh-".toList,
      alts [lit "rsa".toList, lit "dss".toList, lit "ed25519".toList, lit "ecdsa".toList],
      ws1, RE.rep (RE.cls isB64EqC) 50 none])
    (cat [lit "-----BEGIN".toList, ws1,
      alts [lit "RSA".toList, lit "DSA".toList, lit "EC".toList, lit "OPENSSH".toList],
      ws1, RE.alt (lit "PRIVATE".toList) (lit "PUBLIC".toList), ws1, lit "KEY-----".toList])

/-- The common shape `\b[a-fA-F0-9]{n}\b` of the four hash patterns. -/
def hashRE (n : Nat) : RE := cat [RE.wb, hexn n, RE.wb]

/-- Pattern `\b[a-fA-F0-9]{32}\b`. -/
def MD5_REGEX : RE := hashRE 32

/-- Pattern `\b[a-fA-F0-9]{40}\b`. -/
def SHA1_REGEX : RE := hashRE 40

/-- Pattern `\b[a-fA-F0-9]{64}\b`. -/
def SHA256_REGEX : RE := hashRE 64

/-- Pattern `\b[a-fA-F0-9]{128}\b`. -/
def SHA512_REGEX : RE := hashRE 128

/-- Substring containment, the model of Rust's `str::contains` with a
string pattern. -/
def containsL (hay pat : List Char) : Bool :=
  match hay with
  | [] => pat.isEmpty
  | c :: t => pat.isPrefixOf (c :: t) || containsL t pat

/-- Does the list start with the given character (`str::starts_with`)? -/
def firstIs (l : List Char) (c : Char) : Bool :=
  match l with
  | [] => false
  | d :: _ => decide (d = c)

/-- The apostrophe character, used by the Rust-panic heuristic's
needles. -/
def apos : Char := Char.ofNat 39

/-- Heuristic `is_json`: the trimmed line starts with a brace or a
bracket (`trim_start` drops Unicode white space). -/
def is_json (line : List Char) : Bool :=
  firstIs (line.dropWhile isWS) lbrace || firstIs (line.dropWhile isWS) '['

/-- Heuristic `is_xml`. -/
def is_xml (line : List Char) : Bool := firstIs (line.dropWhile isWS) '<'

/-- Heuristic `is_cpp_exception`. -/
def is_cpp_exception (line : List Char) : Bool :=
  containsL line "terminate called after throwing".toList ||
  containsL line "what():".toList ||
  containsL line "std::exception".toList

/-- Heuristic `is_python_traceback`.  Rust's `&&` binds tighter than
`||`; the first-character uppercase test models `char::is_uppercase`
(ASCII subset). -/
def is_python_traceback (line : List Char) : Bool :=
  containsL line "Traceback (most recent call last)".toList ||
  (containsL line "File \"".toList && containsL line ", line ".toList) ||
  (containsL line "Error:".toList &&
    (match line with
     | [] => false
     | c :: _ => isUpperC c))

/-- Heuristic `is_java_stacktrace`. -/
def is_java_stacktrace (line : List Char) : Bool :=
  (containsL line "at ".toList && containsL line ".java:".toList) ||
  containsL line "Exception in thread".toList ||
  containsL line "Caused by:".toList

/-- Heuristic `is_javascript_error`. -/
def is_javascript_error (line : List Char) : Bool :=
  containsL line "Uncaught".toList ||
  containsL line "ReferenceError:".toList ||
  containsL line "TypeError:".toList ||
  (containsL line "at ".toList && containsL line ".js:".toList)

/-- Heuristic `is_go_panic`. -/
def is_go_panic (line : List Char) : Bool :=
  containsL line "panic:".toList ||
  containsL line "goroutine ".toList ||
  containsL line "runtime error:".toList

/-- Heuristic `is_rust_panic`; the two quoted needles are built with an
explicit apostrophe character. -/
def is_rust_panic (line : List Char) : Bool :=
  containsL line "panicked at".toList ||
  (containsL line ("thread ".toList ++ [apos]) &&
   containsL line ([apos] ++ " panicked".toList))

/-- Rust `char::is_control`: the Unicode `Cc` category. -/
def rustIsControl (c : Char) : Bool :=
  decide (c.toNat < 0x20) || (decide (0x7F ≤ c.toNat) && decide (c.toNat ≤ 0x9F))

/-- UTF-8 byte length of a char list, the model of Rust's `str::len`. -/
def utf8Len (l : List Char) : Nat := (l.map Char.utf8Size).sum

/-- Heuristic `is_junk`: the count of control characters (tab excluded)
among the line's chars exceeds a quarter of the line's byte length
(`line.len()` in Rust counts UTF-8 bytes). -/
def is_junk (line : List Char) : Bool :=
  decide ((line.filter (fun c => rustIsControl c && decide (c ≠ '\t'))).length >
    utf8Len line / 4)

/-- The regex-based section of `extract_all_matches`, in source order. -/
def regexCandidates (line : List Char) : List (StringType × Text) :=
  (findIter URL_REGEX line).map (fun t => (StringType.URLString, t)) ++
  (findIter EMAIL_REGEX line).map (fun t => (StringType.EmailString, t)) ++
  (findIter UUID_REGEX line).map (fun t => (StringType.UUIDString, t)) ++
  (findIter MAC_REGEX line).map (fun t => (StringType.MACAddressString, t)) ++
  (findIter IPV4_REGEX line).map (fun t => (StringType.IPv4String, t)) ++
  (findIter IPV6_REGEX line).map (fun t => (StringType.IPv6String, t)) ++
  (findIter TIMESTAMP_REGEX line).map (fun t => (StringType.TimestampString, t)) ++
  (findIter SEMVER_REGEX line).map (fun t => (StringType.SemVerString, t)) ++
  (findIter GIT_HASH_REGEX line).map (fun t => (StringType.GitHashString, t)) ++
  (findIter BASE64_REGEX line).map (fun t => (StringType.Base64String, t)) ++
  (findIter HEX_REGEX line).map (fun t => (StringType.HexString, t)) ++
  (findIter CPP_TEMPLATE_REGEX line).map (fun t => (StringType.CppTemplateString, t)) ++
  (findIter CPP_MANGLED_REGEX line).map (fun t => (StringType.CppRTTIString, t)) ++
  (findIter SQL_REGEX line).map (fun t => (StringType.SQLQueryString, t)) ++
  (findIter PATH_REGEX line).map (fun t => (StringType.PathString, t)) ++
  (findIter FORMAT_REGEX line).map (fun t => (StringType.FormatMessageString, t)) ++
  (findIter SECRET_REGEX line).map (fun t => (StringType.SecretString, t)) ++
  (findIter SSH_KEY_REGEX line).map (fun t => (StringType.SSHKeyString, t)) ++
  (findIter SHA512_REGEX line).map (fun t => (StringType.SHA512HashString, t)) ++
  (findIter SHA256_REGEX line).map (fun t => (StringType.SHA256HashString, t)) ++
  (findIter SHA1_REGEX line).map (fun t => (StringType.SHA1HashString, t)) ++
  (findIter MD5_REGEX line).map (fun t => (StringType.MD5HashString, t))

/-- The whole-line-heuristic section of `extract_all_matches`, in source
order; each firing heuristic contributes the whole line. -/
def heuristicCandidates (line : List Char) : List (StringType × Text) :=
  (if is_cpp_exception line then [(StringType.CppExceptionString, line)] else []) ++
  (if is_python_traceback line then [(StringType.PythonTracebackString, line)] else []) ++
  (if is_java_stacktrace line then [(StringType.JavaStackTraceString, line)] else []) ++
  (if is_javascript_error line then [(StringType.JavaScriptErrorString, line)] else []) ++
  (if is_go_panic line then [(StringType.GoPanicString, line)] else []) ++
  (if is_rust_panic line then [(StringType.RustPanicString, line)] else []) ++
  (if is_json line then [(StringType.JSONString, line)] else []) ++
  (if is_xml line then [(StringType.XMLString, line)] else []) ++
  (if is_junk line then [(StringType.JunkString, line)] else [])

/-- All detector candidates of a line, before the Regular fallback. -/
def rawMatches (line : List Char) : List (StringType × Text) :=
  regexCandidates line ++ heuristicCandidates line

/-- The function `extract_all_matches`: detector candidates, or the
whole line tagged Regular when no detector fired. -/
def extract_all_matches (line : List Char) : List (StringType × Text) :=
  let ms := rawMatches line
  if ms.isEmpty then [(StringType.RegularString, line)] else ms

/-- The command-line kind-or-group filters (enum `TypeFilter`). -/
inductive TypeFilter where
  | Junk | Regular | Ipv4 | Ipv6 | Path | FormatMessage | Secret | Url | Email
  | Uuid | MacAddress | Base64 | Hex | GitHash | Json | Xml | Timestamp | SemVer
  | CppTemplate | CppException | CppRtti | PythonTraceback | JavaStackTrace
  | JavascriptError | GoPanic | RustPanic | SqlQuery | SshKey | Md5 | Sha1 | Sha256 | Sha512
  | Cpp | Errors | Network | Identifiers | DataFormats
deriving DecidableEq

/-- Expansion of a filter into its member kinds
(`TypeFilter::to_string_types`). -/
def TypeFilter.to_string_types : TypeFilter → List StringType
  | .Junk => [.JunkString]
  | .Regular => [.RegularString]
  | .Ipv4 => [.IPv4String]
  | .Ipv6 => [.IPv6String]
  | .Path => [.PathString]
  | .FormatMessage => [.FormatMessageString]
  | .Secret => [.SecretString]
  | .Url => [.URLString]
  | .Email => [.EmailString]
  | .Uuid => [.UUIDString]
  | .MacAddress => [.MACAddressString]
  | .Base64 => [.Base64String]
  | .Hex => [.HexString]
  | .GitHash => [.GitHashString]
  | .Json => [.JSONString]
  | .Xml => [.XMLString]
  | .Timestamp => [.TimestampString]
  | .SemVer => [.SemVerString]
  | .CppTemplate => [.CppTemplateString]
  | .CppException => [.CppExceptionString]
  | .CppRtti => [.CppRTTIString]
  | .PythonTraceback => [.PythonTracebackString]
  | .JavaStackTrace => [.JavaStackTraceString]
  | .JavascriptError => [.JavaScriptErrorString]
  | .GoPanic => [.GoPanicString]
  | .RustPanic => [.RustPanicString]
  | .SqlQuery => [.SQLQueryString]
  | .SshKey => [.SSHKeyString]
  | .Md5 => [.MD5HashString]
  | .Sha1 => [.SHA1HashString]
  | .Sha256 => [.SHA256HashString]
  | .Sha512 => [.SHA512HashString]
  | .Cpp => StringType.cpp_types
  | .Errors => StringType.error_types
  | .Network => StringType.network_types
  | .Identifiers => StringType.identifier_types
  | .DataFormats => StringType.data_format_types

/-- The resolved command-line configuration (struct `Args`).  The
whitelist field `with` is a Lean keyword and is named `withList`.  The
`HashSet<StringType>` values built from these lists are modelled as
lists used only through membership. -/
structure Args where
  analyze : Bool
  max_items : Option Nat
  no_defaults : Bool
  withList : List TypeFilter
  without : List TypeFilter

/-- `Args::build_included_types`: `none` when the whitelist is empty,
otherwise the union of the expansions of the listed filters. -/
def Args.build_included_types (a : Args) : Option (List StringType) :=
  if a.withList.isEmpty then none
  else some (a.withList.flatMap TypeFilter.to_string_types)

/-- `Args::build_excluded_types`: the union of the expansions of the
blacklist filters. -/
def Args.build_excluded_types (a : Args) : List StringType :=
  a.without.flatMap TypeFilter.to_string_types

/-- `Args::should_include_type`. -/
def Args.should_include_type (a : Args) (t : StringType) : Bool :=
  match a.build_included_types with
  | some included => included.contains t
  | none =>
    let excluded := a.build_excluded_types ++
      (if !a.no_defaults then StringType.default_disabled_types else [])
    !excluded.contains t

/-- Insert a text into a per-kind uniqueness set (`HashSet::insert`),
modelled as append-if-absent on the first-insertion-order list of the
set's elements. -/
def insertUnique (l : List Text) (x : Text) : List Text :=
  if l.contains x then l else l ++ [x]

/-- Point update of the aggregate store at one kind
(`collections.entry(..).or_insert_with(..).insert(..)`). -/
def updateStore (st : StringType → List Text) (k : StringType) (x : Text) :
    StringType → List Text :=
  fun k' => if k' = k then insertUnique (st k) x else st k'

/-- Record one line's filtered candidates into the store (the body of
the `for (string_type, matched_text) in matches` loop of `main`). -/
def recordLine (a : Args) (st : StringType → List Text) (line : List Char) :
    StringType → List Text :=
  (extract_all_matches line).foldl
    (fun st p => if a.should_include_type p.1 then updateStore st p.1 p.2 else st) st

/-- Aggregate a whole input stream (the reader loop of `main`).  A kind
maps to the empty list exactly when it is absent from the Rust
`HashMap` (every set the program creates receives an element at
creation). -/
def processLines (a : Args) (lines : List (List Char)) : StringType → List Text :=
  lines.foldl (recordLine a) (fun _ => [])

/-- One printed item line of `print_summary` (`println!` output,
trailing newline included). -/
def itemLine (s : Text) : String := "  " ++ String.mk s ++ "\n"

/-- The truncation notice line `  ... (N more)`. -/
def moreLine (n : Nat) : String := "  ... (" ++ toString n ++ " more)" ++ "\n"

/-- The per-kind header line (a `println!` with a leading blank line). -/
def headerLine (t : StringType) (n : Nat) : String :=
  "\n" ++ t.as_str ++ " [" ++ toString n ++ "]:" ++ "\n"

/-- The item loop of `print_summary`: print each string, but once
`count` reaches a positive `limit`, print the notice
`(total - limit) more` and stop.  `total` is `strings.len()`. -/
def itemLines (total limit count : Nat) : List Text → List String
  | [] => []
  | s :: rest =>
    if limit > 0 ∧ count ≥ limit then [moreLine (total - limit)]
    else itemLine s :: itemLines total limit (count + 1) rest

/-- The printed block of one kind: header plus, unless `analyze`, the
capped item list (`max_items.unwrap_or(0)`); nothing for a kind with an
empty (i.e. absent) set. -/
def kindBlock (analyze : Bool) (max_items : Option Nat) (k : StringType) (items : List Text) :
    List String :=
  if items.isEmpty then []
  else headerLine k items.length ::
    (if analyze then [] else itemLines items.length (max_items.getD 0) 0 items)

/-- Byte-lexicographic order on char lists, the model of Rust's `str`
ordering used by `sort_by_key` (the display names are ASCII, where
char-lexicographic and byte-lexicographic orders agree). -/
def lexLe : List Char → List Char → Bool
  | [], _ => true
  | _ :: _, [] => false
  | a :: as, b :: bs => if a < b then true else if a = b then lexLe as bs else false

/-- The 32 kinds sorted by display name.  `print_summary` sorts the hash
map's entries with `sort_by_key(as_str)`; since display names are
distinct the sorted order of the present kinds does not depend on the
hash map's iteration order, so iterating the sorted full enumeration
and skipping absent (empty) kinds is faithful. -/
def sortedAllKinds : List StringType :=
  List.insertionSort (fun x y => lexLe x.as_str.toList y.as_str.toList = true) allStringTypes

/-- All lines printed by `print_summary`. -/
def printSummaryLines (store : StringType → List Text) (analyze : Bool)
    (max_items : Option Nat) : List String :=
  sortedAllKinds.flatMap (fun k => kindBlock analyze max_items k (store k))

/-- The fixed usage text of `print_final_summary`. -/
def usageText : String :=
  "\nTo filter, use:" ++ "\n" ++
  "  --with <type>     (include only specific types, can repeat)" ++ "\n" ++
  "  --without <type>  (exclude specific types, can repeat)" ++ "\n" ++
  "  --analyze         (show only counts)" ++ "\n" ++
  "  --max-items N     (limit items per type)" ++ "\n" ++
  "  --no-defaults     (disable default filters)" ++ "\n" ++
  "\nExamples:" ++ "\n" ++
  "  --with url --with email" ++ "\n" ++
  "  --without errors --without cpp" ++ "\n"

/-- All lines printed by `print_final_summary`: nothing when the store
is empty, otherwise the name-sorted list of detected kinds plus usage
hints. -/
def printFinalLines (store : StringType → List Text) : List String :=
  let ks := sortedAllKinds.filter (fun k => !(store k).isEmpty)
  if ks.isEmpty then []
  else ["\n\n=== Summary ===" ++ "\n",
    "Detected types: " ++ String.intercalate ", " (ks.map StringType.as_str) ++ "\n",
    usageText]

/-- The full report text printed for a given final store state. -/
def reportOf (a : Args) (store : StringType → List Text) : String :=
  String.join (printSummaryLines store a.analyze a.max_items ++ printFinalLines store)

/-- An enumeration oracle: for each kind, the order in which the Rust
`HashSet`'s iterator yields the set's elements.  That order is chosen by
the process-local random hash state, not by the input or configuration,
so a run of the program is modelled as the pair (deterministic
aggregation, arbitrary valid oracle). -/
def validEnum (e : StringType → List Text → List Text) : Prop :=
  ∀ k l, (e k l).Perm l

/-- The report printed by one run of the engine on `input` under
configuration `a`, when the hash state makes the per-kind sets iterate
in the order given by `e`. -/
def runReport (a : Args) (input : List (List Char))
    (e : StringType → List Text → List Text) : String :=
  reportOf a (fun k => e k (processLines a input k))

/-!  Theorems.  -/

theorem reSize_pos (r : RE) : 0 < reSize r := by
  cases r <;> simp [reSize]

theorem reSize_seq (a b : RE) : reSize (RE.seq a b) = 1 + reSize a + reSize b := rfl

theorem reSize_alt (a b : RE) : reSize (RE.alt a b) = 1 + reSize a + reSize b := rfl

theorem reSize_rep_le (a : RE) (lo : Nat) (hi : Option Nat) :
    reSize (RE.rep a (lo - 1) (decOpt hi)) ≤ reSize (RE.rep a lo hi) := by
  cases hi <;> simp [reSize, decOpt] <;> omega

theorem reSize_rep_a (a : RE) (lo : Nat) (hi : Option Nat) :
    reSize a < reSize (RE.rep a lo hi) := by
  cases hi <;> simp [reSize] <;> omega

/-- Fuel above the measure is irrelevant: every fuel strictly above
`reMeasure r s` computes the same result as the canonical fuel. -/
theorem matchFuel_canon : ∀ (f : Nat) (r : RE) (before s : List Char),
    reMeasure r s < f → matchFuel f r before s = matchFuel (reMeasure r s + 1) r before s := by
  intro f
  induction f using Nat.strong_induction_on with
  | _ f ih =>
    intro r before s hf
    match f with
    | 0 => exact absurd hf (by omega)
    | f + 1 =>
      have hms : reMeasure r s ≤ f := by omega
      cases r with
      | eps => rfl
      | wb => rfl
      | cls p => rfl
      | seq a b =>
        have hsa : reSize a < reSize (RE.seq a b) := by rw [reSize_seq]; omega
        have hsb : reSize b < reSize (RE.seq a b) := by rw [reSize_seq]; omega
        have hma : reMeasure a s < f := by simp only [reMeasure] at *; omega
        have hma2 : reMeasure a s < reMeasure (RE.seq a b) s := by
          simp only [reMeasure]; omega
        simp only [matchFuel]
        rw [ih f (by omega) a before s hma,
          ih (reMeasure (RE.seq a b) s) (by omega) a before s hma2]
        congr 1
        funext n
        have hd : (s.drop n).length ≤ s.length := by simp
        have hmb : reMeasure b (s.drop n) < f := by simp only [reMeasure] at *; omega
        have hmb2 : reMeasure b (s.drop n) < reMeasure (RE.seq a b) s := by
          simp only [reMeasure] at *; omega
        rw [ih f (by omega) b _ _ hmb,
          ih (reMeasure (RE.seq a b) s) (by omega) b _ _ hmb2]
      | alt a b =>
        have hsa : reSize a < reSize (RE.alt a b) := by rw [reSize_alt]; omega
        have hsb : reSize b < reSize (RE.alt a b) := by rw [reSize_alt]; omega
        have hma : reMeasure a s < f := by simp only [reMeasure] at *; omega
        have hma2 : reMeasure a s < reMeasure (RE.alt a b) s := by
          simp only [reMeasure]; omega
        have hmb : reMeasure b s < f := by simp only [reMeasure] at *; omega
        have hmb2 : reMeasure b s < reMeasure (RE.alt a b) s := by
          simp only [reMeasure]; omega
        simp only [matchFuel]
        rw [ih f (by omega) a before s hma,
          ih (reMeasure (RE.alt a b) s) (by omega) a before s hma2,
          ih f (by omega) b before s hmb,
          ih (reMeasure (RE.alt a b) s) (by omega) b before s hmb2]
      | rep a lo hi =>
        have hsa := reSize_rep_a a lo hi
        have hsr := reSize_rep_le a lo hi
        have hma : reMeasure a s < f := by simp only [reMeasure] at *; omega
        have hma2 : reMeasure a s < reMeasure (RE.rep a lo hi) s := by
          simp only [reMeasure]; omega
        have hfun : ∀ n : Nat,
            (if 0 < n ∧ n ≤ s.length then
              (matchFuel f (.rep a (lo - 1) (decOpt hi)) ((s.take n).reverse ++ before)
                  (s.drop n)).map (fun m => n + m)
            else []) =
            (if 0 < n ∧ n ≤ s.length then
              (matchFuel (reMeasure (RE.rep a lo hi) s) (.rep a (lo - 1) (decOpt hi))
                  ((s.take n).reverse ++ before) (s.drop n)).map (fun m => n + m)
            else []) := by
          intro n
          by_cases hn : 0 < n ∧ n ≤ s.length
          · simp only [if_pos hn]
            have hdn : (s.drop n).length < s.length := by
              simp only [List.length_drop]
              omega
            have hmr : reMeasure (RE.rep a (lo - 1) (decOpt hi)) (s.drop n) < f := by
              simp only [reMeasure] at *
              omega
            have hmr2 : reMeasure (RE.rep a (lo - 1) (decOpt hi)) (s.drop n) <
                reMeasure (RE.rep a lo hi) s := by
              simp only [reMeasure] at *
              omega
            rw [ih f (by omega) _ _ _ hmr,
              ih (reMeasure (RE.rep a lo hi) s) (by omega) _ _ _ hmr2]
          · simp only [if_neg hn]
        simp only [matchFuel]
        rw [ih f (by omega) a before s hma,
          ih (reMeasure (RE.rep a lo hi) s) (by omega) a before s hma2]
        rw [funext hfun]

/-- Unfolding equation for `matchRE` at `eps`. -/
theorem matchRE_eps (before s : List Char) : matchRE .eps before s = [0] := rfl

/-- Unfolding equation for `matchRE` at `wb`. -/
theorem matchRE_wb (before s : List Char) :
    matchRE .wb before s = (if atBoundary before s then [0] else []) := rfl

/-- Unfolding equation for `matchRE` at a character class. -/
theorem matchRE_cls (p : Char → Bool) (before s : List Char) :
    matchRE (.cls p) before s =
      (match s with
       | [] => []
       | c :: _ => if p c then [1] else []) := rfl

/-- Unfolding equation for `matchRE` at a sequence. -/
theorem matchRE_seq (a b : RE) (before s : List Char) :
    matchRE (.seq a b) before s =
      (matchRE a before s).flatMap (fun n =>
        (matchRE b ((s.take n).reverse ++ before) (s.drop n)).map (fun m => n + m)) := by
  show matchFuel (reMeasure (RE.seq a b) s + 1) _ _ _ = _
  simp only [matchFuel]
  rw [matchFuel_canon (reMeasure (RE.seq a b) s) a before s
    (by simp only [reMeasure, reSize_seq]; omega)]
  congr 1
  funext n
  rw [matchFuel_canon (reMeasure (RE.seq a b) s) b _ _
    (by
      have h1 : (s.drop n).length ≤ s.length := by simp
      simp only [reMeasure, reSize_seq] at *
      omega)]
  rfl

/-- Unfolding equation for `matchRE` at an alternation. -/
theorem matchRE_alt (a b : RE) (before s : List Char) :
    matchRE (.alt a b) before s = matchRE a before s ++ matchRE b before s := by
  show matchFuel (reMeasure (RE.alt a b) s + 1) _ _ _ = _
  simp only [matchFuel]
  rw [matchFuel_canon (reMeasure (RE.alt a b) s) a before s
    (by simp only [reMeasure, reSize_alt]; omega),
    matchFuel_canon (reMeasure (RE.alt a b) s) b before s
    (by simp only [reMeasure, reSize_alt]; omega)]
  rfl

/-- Unfolding equation for `matchRE` at a repetition. -/
theorem matchRE_rep (a : RE) (lo : Nat) (hi : Option Nat) (before s : List Char) :
    matchRE (.rep a lo hi) before s =
      (if hi = some 0 then (if lo = 0 then [0] else [])
      else
        let conts := (matchRE a before s).flatMap (fun n =>
          if 0 < n ∧ n ≤ s.length then
            (matchRE (.rep a (lo - 1) (decOpt hi)) ((s.take n).reverse ++ before)
                (s.drop n)).map (fun m => n + m)
          else [])
        if lo = 0 then conts ++ [0] else conts) := by
  show matchFuel (reMeasure (RE.rep a lo hi) s + 1) _ _ _ = _
  simp only [matchFuel]
  have hsa := reSize_rep_a a lo hi
  have hsr := reSize_rep_le a lo hi
  have hfun : ∀ n : Nat,
      (if 0 < n ∧ n ≤ s.length then
        (matchFuel (reMeasure (RE.rep a lo hi) s) (.rep a (lo - 1) (decOpt hi))
            ((s.take n).reverse ++ before) (s.drop n)).map (fun m => n + m)
      else []) =
      (if 0 < n ∧ n ≤ s.length then
        (matchRE (.rep a (lo - 1) (decOpt hi)) ((s.take n).reverse ++ before)
            (s.drop n)).map (fun m => n + m)
      else []) := by
    intro n
    by_cases hn : 0 < n ∧ n ≤ s.length
    · simp only [if_pos hn]
      have hdn : (s.drop n).length < s.length := by
        simp only [List.length_drop]
        omega
      rw [matchFuel_canon (reMeasure (RE.rep a lo hi) s) _ _ _
        (by simp only [reMeasure] at *; omega)]
      rfl
    · simp only [if_neg hn]
  rw [matchFuel_canon (reMeasure (RE.rep a lo hi) s) a before s
    (by simp only [reMeasure]; omega)]
  rw [funext hfun]
  rfl

/-- One-step unfolding of the scanner at successor fuel. -/
theorem scanFuel_succ (f : Nat) (r : RE) (before s : List Char) :
    scanFuel (f + 1) r before s =
      (match matchRE r before s with
       | [] =>
         match s with
         | [] => []
         | c :: rest => scanFuel f r (c :: before) rest
       | n :: _ =>
         if n = 0 then
           match s with
           | [] => [[]]
           | c :: rest => [] :: scanFuel f r (c :: before) rest
         else
           match s with
           | [] => []
           | c :: rest =>
             ((c :: rest).take n) :: scanFuel f r (((c :: rest).take n).reverse ++ before)
               ((c :: rest).drop n)) := rfl

/-- Fuel above `s.length` is irrelevant for the scanner. -/
theorem scanFuel_canon : ∀ (f : Nat) (r : RE) (before s : List Char),
    s.length < f → scanFuel f r before s = scanFuel (s.length + 1) r before s := by
  intro f
  induction f using Nat.strong_induction_on with
  | _ f ih =>
    intro r before s hf
    match f with
    | 0 => exact absurd hf (by omega)
    | f + 1 =>
      rw [scanFuel_succ]
      rw [scanFuel_succ s.length]
      cases hm : matchRE r before s with
      | nil =>
        cases s with
        | nil => rfl
        | cons c rest =>
          show scanFuel f r (c :: before) rest = scanFuel rest.length.succ r (c :: before) rest
          have h1 : rest.length < f := by
            simp only [List.length_cons] at hf
            omega
          rw [ih f (by omega) r (c :: before) rest h1]
      | cons n tl =>
        cases s with
        | nil => rfl
        | cons c rest =>
          show (if n = 0 then [] :: scanFuel f r (c :: before) rest
              else ((c :: rest).take n) ::
                scanFuel f r (((c :: rest).take n).reverse ++ before) ((c :: rest).drop n)) =
            (if n = 0 then [] :: scanFuel rest.length.succ r (c :: before) rest
              else ((c :: rest).take n) ::
                scanFuel rest.length.succ r (((c :: rest).take n).reverse ++ before)
                  ((c :: rest).drop n))
          have hflen : rest.length < f := by
            simp only [List.length_cons] at hf
            omega
          by_cases hn0 : n = 0
          · rw [if_pos hn0, if_pos hn0]
            rw [ih f (by omega) r (c :: before) rest hflen]
          · rw [if_neg hn0, if_neg hn0]
            have h1 : ((c :: rest).drop n).length < f := by
              simp only [List.length_drop, List.length_cons]
              omega
            rw [ih f (by omega) r _ ((c :: rest).drop n) h1]
            rw [ih rest.length.succ (by omega) r _ ((c :: rest).drop n) (by
              simp only [List.length_drop, List.length_cons]
              omega)]

/-- The scanner stops at end of input when the pattern does not match
there. -/
theorem scanIter_nil_nomatch {r : RE} {before : List Char}
    (hm : matchRE r before [] = []) : scanIter r before [] = [] := by
  show scanFuel ([] : List Char).length.succ r before [] = []
  rw [scanFuel_succ, hm]

/-- The scanner advances one character when no match starts here. -/
theorem scanIter_cons_nomatch {r : RE} {before : List Char} {c : Char} {rest : List Char}
    (hm : matchRE r before (c :: rest) = []) :
    scanIter r before (c :: rest) = scanIter r (c :: before) rest := by
  show scanFuel (c :: rest).length.succ r before (c :: rest) = _
  rw [scanFuel_succ, hm]
  rfl

/-- The scanner emits the leftmost-first match and continues after
it. -/
theorem scanIter_cons_match {r : RE} {before : List Char} {c : Char} {rest : List Char}
    {n : Nat} {tl : List Nat} (hm : matchRE r before (c :: rest) = n :: tl) (hn : n ≠ 0) :
    scanIter r before (c :: rest) =
      ((c :: rest).take n) :: scanIter r (((c :: rest).take n).reverse ++ before)
        ((c :: rest).drop n) := by
  show scanFuel (c :: rest).length.succ r before (c :: rest) = _
  rw [scanFuel_succ, hm]
  show (if n = 0 then [] :: scanFuel rest.length.succ r (c :: before) rest
      else ((c :: rest).take n) ::
        scanFuel rest.length.succ r (((c :: rest).take n).reverse ++ before)
          ((c :: rest).drop n)) = _
  rw [if_neg hn]
  rw [scanFuel_canon rest.length.succ r _ ((c :: rest).drop n) (by
    simp only [List.length_drop, List.length_cons]
    omega)]
  rfl

theorem mem_guard_iff {α : Type} {b : Bool} {x p : α} :
    (p ∈ (if b then [x] else [])) ↔ b = true ∧ p = x := by
  cases b <;> simp

theorem mem_map_pair {k K : StringType} {t : Text} {l : List Text} :
    ((k, t) ∈ l.map (fun x => (K, x))) ↔ (K = k ∧ t ∈ l) := by
  simp only [List.mem_map, Prod.mk.injEq]
  constructor
  · rintro ⟨x, hx, hK, ht⟩
    exact ⟨hK, ht ▸ hx⟩
  · rintro ⟨rfl, ht⟩
    exact ⟨t, ht, rfl, rfl⟩

/-- Membership characterization of the detector candidate list: each
candidate comes from exactly the block of its kind, in source order. -/
theorem mem_rawMatches_iff (line : List Char) (k : StringType) (t : Text) :
    ((k, t) ∈ rawMatches line) ↔
      ((StringType.URLString = k ∧ t ∈ findIter URL_REGEX line) ∨
       (StringType.EmailString = k ∧ t ∈ findIter EMAIL_REGEX line) ∨
       (StringType.UUIDString = k ∧ t ∈ findIter UUID_REGEX line) ∨
       (StringType.MACAddressString = k ∧ t ∈ findIter MAC_REGEX line) ∨
       (StringType.IPv4String = k ∧ t ∈ findIter IPV4_REGEX line) ∨
       (StringType.IPv6String = k ∧ t ∈ findIter IPV6_REGEX line) ∨
       (StringType.TimestampString = k ∧ t ∈ findIter TIMESTAMP_REGEX line) ∨
       (StringType.SemVerString = k ∧ t ∈ findIter SEMVER_REGEX line) ∨
       (StringType.GitHashString = k ∧ t ∈ findIter GIT_HASH_REGEX line) ∨
       (StringType.Base64String = k ∧ t ∈ findIter BASE64_REGEX line) ∨
       (StringType.HexString = k ∧ t ∈ findIter HEX_REGEX line) ∨
       (StringType.CppTemplateString = k ∧ t ∈ findIter CPP_TEMPLATE_REGEX line) ∨
       (StringType.CppRTTIString = k ∧ t ∈ findIter CPP_MANGLED_REGEX line) ∨
       (StringType.SQLQueryString = k ∧ t ∈ findIter SQL_REGEX line) ∨
       (StringType.PathString = k ∧ t ∈ findIter PATH_REGEX line) ∨
       (StringType.FormatMessageString = k ∧ t ∈ findIter FORMAT_REGEX line) ∨
       (StringType.SecretString = k ∧ t ∈ findIter SECRET_REGEX line) ∨
       (StringType.SSHKeyString = k ∧ t ∈ findIter SSH_KEY_REGEX line) ∨
       (StringType.SHA512HashString = k ∧ t ∈ findIter SHA512_REGEX line) ∨
       (StringType.SHA256HashString = k ∧ t ∈ findIter SHA256_REGEX line) ∨
       (StringType.SHA1HashString = k ∧ t ∈ findIter SHA1_REGEX line) ∨
       (StringType.MD5HashString = k ∧ t ∈ findIter MD5_REGEX line) ∨
       (is_cpp_exception line = true ∧ k = StringType.CppExceptionString ∧ t = line) ∨
       (is_python_traceback line = true ∧ k = StringType.PythonTracebackString ∧ t = line) ∨
       (is_java_stacktrace line = true ∧ k = StringType.JavaStackTraceString ∧ t = line) ∨
       (is_javascript_error line = true ∧ k = StringType.JavaScriptErrorString ∧ t = line) ∨
       (is_go_panic line = true ∧ k = StringType.GoPanicString ∧ t = line) ∨
       (is_rust_panic line = true ∧ k = StringType.RustPanicString ∧ t = line) ∨
       (is_json line = true ∧ k = StringType.JSONString ∧ t = line) ∨
       (is_xml line = true ∧ k = StringType.XMLString ∧ t = line) ∨
       (is_junk line = true ∧ k = StringType.JunkString ∧ t = line)) := by
  simp only [rawMatches, regexCandidates, heuristicCandidates, List.append_assoc,
    List.mem_append, mem_map_pair, mem_guard_iff, Prod.mk.injEq, or_assoc]

theorem withList_isEmpty_false {a : Args} (hw : a.withList ≠ []) :
    a.withList.isEmpty = false := by
  cases h : a.withList
  · exact absurd h hw
  · rfl

/-- C1: when the whitelist is non-empty, the decision function accepts
exactly the kinds in the union of the expansions of the listed filters,
and the blacklist, the `no_defaults` flag (and the default-suppressed
set it controls) have no effect on the decision. -/
theorem spec_c1 (a : Args) (t : StringType) (hw : a.withList ≠ []) :
    (a.should_include_type t = true ↔ ∃ f ∈ a.withList, t ∈ f.to_string_types) ∧
    (∀ an mi nd wo,
      (Args.mk an mi nd a.withList wo).should_include_type t = a.should_include_type t) := by
  have hne := withList_isEmpty_false hw
  constructor
  · simp [Args.should_include_type, Args.build_included_types, hne, List.elem_iff,
      List.mem_flatMap]
  · intro an mi nd wo
    simp [Args.should_include_type, Args.build_included_types, hne]

/-- Witness for C1 at a concrete configuration. -/
theorem spec_c1_witness :
    ((Args.mk false none true [TypeFilter.Network] [TypeFilter.Ipv4]).withList ≠ []) ∧
    ((Args.mk false none true [TypeFilter.Network]
        [TypeFilter.Ipv4]).should_include_type .IPv4String = true ↔
      ∃ f ∈ [TypeFilter.Network], StringType.IPv4String ∈ f.to_string_types) :=
  ⟨by decide, (spec_c1 (Args.mk false none true [TypeFilter.Network] [TypeFilter.Ipv4])
    .IPv4String (by decide)).1⟩

/-- C7: with an empty whitelist the decision function accepts exactly
the kinds absent from the expanded blacklist and absent (unless
`no_defaults` is set) from the fixed ten-element default-suppressed
set. -/
theorem spec_c7 (a : Args) (t : StringType) (hw : a.withList = []) :
    (a.should_include_type t = true ↔
      (t ∉ a.build_excluded_types ∧
       (a.no_defaults = false →
        t ∉ ([.RustPanicString, .PythonTracebackString, .JavaStackTraceString,
          .JavaScriptErrorString, .GoPanicString, .CppExceptionString, .Base64String,
          .HexString, .JSONString, .GitHashString] : List StringType)))) := by
  have hne : a.withList.isEmpty = true := by rw [hw]; rfl
  cases hnd : a.no_defaults <;>
    simp [Args.should_include_type, Args.build_included_types, hne, hnd, List.elem_iff,
      StringType.default_disabled_types, Args.build_excluded_types, not_or, and_assoc]

/-- Witness for C7 at a concrete configuration: JSON is suppressed by
default when no whitelist is given. -/
theorem spec_c7_witness :
    ((Args.mk false none false [] []).should_include_type .JSONString = true ↔
      (StringType.JSONString ∉ (Args.mk false none false [] []).build_excluded_types ∧
       ((Args.mk false none false [] []).no_defaults = false →
        StringType.JSONString ∉ ([.RustPanicString, .PythonTracebackString,
          .JavaStackTraceString, .JavaScriptErrorString, .GoPanicString, .CppExceptionString,
          .Base64String, .HexString, .JSONString, .GitHashString] : List StringType)))) :=
  spec_c7 (Args.mk false none false [] []) .JSONString rfl

/-- C5: a line on which no detector fired degenerates to the single
Regular candidate carrying the whole line. -/
theorem spec_c5 (line : List Char) (h : rawMatches line = []) :
    extract_all_matches line = [(StringType.RegularString, line)] := by
  simp [extract_all_matches, h]

/-- Witness for C5: the line `hi` triggers no detector. -/
theorem spec_c5_witness :
    rawMatches "hi".toList = [] ∧
    extract_all_matches "hi".toList = [(StringType.RegularString, "hi".toList)] :=
  ⟨by decide, spec_c5 "hi".toList (by decide)⟩

theorem insertUnique_nodup {l : List Text} (h : l.Nodup) (x : Text) :
    (insertUnique l x).Nodup := by
  unfold insertUnique
  split
  · exact h
  · rename_i hc
    simp only [List.nodup_append, List.nodup_cons, List.not_mem_nil, not_false_iff,
      List.nodup_nil, and_true, true_and]
    refine ⟨h, ?_⟩
    intro b hb
    simp only [List.mem_singleton]
    intro hbx
    subst hbx
    exact hc (List.elem_iff.mpr hb)

theorem foldl_record_nodup (a : Args) (cands : List (StringType × Text)) :
    ∀ st : StringType → List Text, (∀ k, (st k).Nodup) →
      ∀ k, ((cands.foldl
        (fun st p => if a.should_include_type p.1 then updateStore st p.1 p.2 else st) st)
          k).Nodup := by
  induction cands with
  | nil => intro st h k; exact h k
  | cons p rest ih =>
    intro st h k
    simp only [List.foldl_cons]
    apply ih
    intro k'
    by_cases hp : a.should_include_type p.1 = true
    · simp only [hp, if_true, updateStore]
      by_cases hk : k' = p.1
      · simp only [hk, if_true]
        exact insertUnique_nodup (h p.1) p.2
      · simp only [hk, if_false]
        exact h k'
    · simp only [hp, if_false]
      exact h k'

/-- C6: after processing any input stream under any configuration, each
kind's set in the aggregate store holds no text twice. -/
theorem spec_c6 (a : Args) (lines : List (List Char)) (k : StringType) :
    ((processLines a lines) k).Nodup := by
  suffices h : ∀ st : StringType → List Text, (∀ k, (st k).Nodup) →
      ∀ k, ((lines.foldl (recordLine a) st) k).Nodup by
    exact h _ (fun _ => List.nodup_nil) k
  induction lines with
  | nil => intro st h k; exact h k
  | cons l rest ih =>
    intro st h k
    simp only [List.foldl_cons]
    exact ih _ (fun k' => foldl_record_nodup a (extract_all_matches l) st h k') k

theorem itemLines_zero (total : Nat) : ∀ (count : Nat) (l : List Text),
    itemLines total 0 count l = l.map itemLine := by
  intro count l
  induction l generalizing count with
  | nil => rfl
  | cons s rest ih =>
    simp only [itemLines, List.map_cons]
    rw [if_neg (by omega)]
    rw [ih]

theorem itemLines_pos (total limit : Nat) (hl : 0 < limit) :
    ∀ (l : List Text) (count : Nat), count ≤ limit →
      itemLines total limit count l =
        if l.length ≤ limit - count then l.map itemLine
        else (l.take (limit - count)).map itemLine ++ [moreLine (total - limit)] := by
  intro l
  induction l with
  | nil => intro count hc; simp [itemLines]
  | cons s rest ih =>
    intro count hc
    by_cases hstop : count ≥ limit
    · rw [show itemLines total limit count (s :: rest) = [moreLine (total - limit)] from by
        simp only [itemLines]
        rw [if_pos (show limit > 0 ∧ count ≥ limit from ⟨hl, hstop⟩)]]
      rw [if_neg (by
        simp only [List.length_cons]
        omega)]
      rw [show limit - count = 0 from by omega]
      simp
    · simp only [itemLines]
      rw [if_neg (show ¬(limit > 0 ∧ count ≥ limit) from by omega)]
      rw [ih (count + 1) (by omega)]
      by_cases hrest : rest.length ≤ limit - (count + 1)
      · rw [if_pos hrest, if_pos (by
          simp only [List.length_cons]
          omega)]
        simp
      · rw [if_neg hrest, if_neg (by
          simp only [List.length_cons]
          omega)]
        rw [show limit - count = (limit - (count + 1)) + 1 from by omega]
        simp [List.take_succ_cons]

/-- C8: the per-kind item listing is capped by `max_items`: a zero or
absent cap prints every string with no notice; a positive cap at least
the set size prints every string with no notice; a positive cap `M`
smaller than the set size `S` prints exactly the first `M` strings
followed by the notice naming `S - M` more. -/
theorem spec_c8 (items : List Text) (mi : Option Nat) :
    (mi.getD 0 = 0 → itemLines items.length (mi.getD 0) 0 items = items.map itemLine) ∧
    (0 < mi.getD 0 → items.length ≤ mi.getD 0 →
      itemLines items.length (mi.getD 0) 0 items = items.map itemLine) ∧
    (0 < mi.getD 0 → mi.getD 0 < items.length →
      itemLines items.length (mi.getD 0) 0 items =
        (items.take (mi.getD 0)).map itemLine ++
          [moreLine (items.length - mi.getD 0)]) := by
  refine ⟨fun h0 => ?_, fun hpos hle => ?_, fun hpos hlt => ?_⟩
  · rw [h0]
    exact itemLines_zero items.length 0 items
  · rw [itemLines_pos items.length (mi.getD 0) hpos items 0 (Nat.zero_le _)]
    rw [if_pos (by omega)]
  · rw [itemLines_pos items.length (mi.getD 0) hpos items 0 (Nat.zero_le _)]
    rw [if_neg (by omega)]
    simp

/-- Witness for C8 at a three-element set and cap two. -/
theorem spec_c8_witness :
    (0 < (some 2 : Option Nat).getD 0 ∧ (some 2 : Option Nat).getD 0 < 3) ∧
    itemLines ([['a'], ['b'], ['c']] : List Text).length ((some 2 : Option Nat).getD 0) 0
        [['a'], ['b'], ['c']] =
      (([['a'], ['b'], ['c']] : List Text).take 2).map itemLine ++ [moreLine 1] :=
  ⟨⟨by decide, by decide⟩,
    (spec_c8 [['a'], ['b'], ['c']] (some 2)).2.2 (by decide) (by decide)⟩

/-- No detector block ever emits the Regular kind. -/
theorem raw_not_regular (line : List Char) (t : Text) :
    (StringType.RegularString, t) ∉ rawMatches line := by
  intro h
  rw [mem_rawMatches_iff] at h
  simp at h

/-- C10: the candidate list of a line contains a Regular candidate
exactly when it contains no candidate of any other kind, and it never
contains two Regular candidates. -/
theorem spec_c10 (line : List Char) :
    ((∃ t, (StringType.RegularString, t) ∈ extract_all_matches line) ↔
      ∀ p ∈ extract_all_matches line, p.1 = StringType.RegularString) ∧
    (extract_all_matches line).countP
      (fun p => decide (p.1 = StringType.RegularString)) ≤ 1 := by
  unfold extract_all_matches
  by_cases hraw : (rawMatches line).isEmpty
  · simp only [hraw, if_pos]
    constructor
    · constructor
      · rintro - p hp
        simp only [List.mem_singleton] at hp
        rw [hp]
      · intro _
        exact ⟨line, List.mem_singleton.mpr rfl⟩
    · simp
  · simp only [hraw, Bool.false_eq_true, if_false]
    have hne : rawMatches line ≠ [] := by
      intro h
      rw [h] at hraw
      simp at hraw
    constructor
    · constructor
      · rintro ⟨t, ht⟩
        exact absurd ht (raw_not_regular line t)
      · intro hall
        rcases List.exists_mem_of_ne_nil _ hne with ⟨p, hp⟩
        have h1 := hall p hp
        have h2 : (p.1, p.2) ∈ rawMatches line := by
          rw [show ((p.1, p.2) : StringType × Text) = p from rfl]
          exact hp
        rw [h1] at h2
        exact absurd h2 (raw_not_regular line p.2)
    · rw [List.countP_eq_zero.mpr]
      · omega
      · intro p hp
        simp only [decide_eq_true_eq]
        intro h1
        have h2 : (p.1, p.2) ∈ rawMatches line := by
          rw [show ((p.1, p.2) : StringType × Text) = p from rfl]
          exact hp
        rw [h1] at h2
        exact absurd h2 (raw_not_regular line p.2)

/-- A line carries a Junk candidate exactly when the junk heuristic
fires. -/
theorem junk_mem_iff (line : List Char) :
    (∃ t, (StringType.JunkString, t) ∈ extract_all_matches line) ↔ is_junk line = true := by
  constructor
  · rintro ⟨t, ht⟩
    unfold extract_all_matches at ht
    by_cases hraw : (rawMatches line).isEmpty
    · simp only [hraw, if_pos, List.mem_singleton, Prod.mk.injEq] at ht
      exact absurd ht.1 (by decide)
    · simp only [hraw, Bool.false_eq_true, if_false] at ht
      rw [mem_rawMatches_iff] at ht
      simp at ht
      exact ht.1
  · intro hj
    have hmem : (StringType.JunkString, line) ∈ rawMatches line := by
      rw [mem_rawMatches_iff]
      simp [hj]
    have hne : (rawMatches line).isEmpty = false := by
      cases h : rawMatches line with
      | nil => rw [h] at hmem; simp at hmem
      | cons q qs => rfl
    exact ⟨line, by simp [extract_all_matches, hne, hmem]⟩

/-- C3 (amended): a line is tagged Junk exactly when its count of
control characters (tab excluded) exceeds a quarter of its UTF-8 byte
length (integer division), the denominator the Rust code actually uses
(`line.len()` counts bytes, not characters). -/
theorem spec_c3 (line : List Char) :
    (∃ t, (StringType.JunkString, t) ∈ extract_all_matches line) ↔
      (line.filter (fun c => rustIsControl c && decide (c ≠ '\t'))).length >
        utf8Len line / 4 := by
  rw [junk_mem_iff]
  unfold is_junk
  simp

/-- Counterexample to C3 as stated: the two-character line made of a
CJK ideograph (three UTF-8 bytes) followed by the control character
`U+0001` has more control characters than a quarter of its character
count, yet the engine does not tag it Junk (its byte length is four, so
the code's threshold `1 > 4 / 4` fails). -/
theorem spec_c3_cex :
    (([Char.ofNat 0x4E00, Char.ofNat 1].filter
        (fun c => rustIsControl c && decide (c ≠ '\t'))).length >
      ([Char.ofNat 0x4E00, Char.ofNat 1] : List Char).length / 4) ∧
    ¬∃ t, (StringType.JunkString, t) ∈
      extract_all_matches [Char.ofNat 0x4E00, Char.ofNat 1] := by
  constructor
  · decide
  · rw [junk_mem_iff]
    decide

theorem hex_isWord {c : Char} (h : isHexAny c = true) : isWordChar c = true := by
  unfold isHexAny at h
  unfold isWordChar isAlnumC isAlphaC isLowerC isUpperC isDigitC
  unfold isDigitC between at h
  unfold between
  simp only [Bool.or_eq_true, Bool.and_eq_true, decide_eq_true_eq] at h ⊢
  rcases h with (h | h) | h
  · exact Or.inl (Or.inl h)
  · exact Or.inl (Or.inr (Or.inl ⟨h.1, le_trans h.2 (by decide)⟩))
  · exact Or.inl (Or.inr (Or.inr ⟨h.1, le_trans h.2 (by decide)⟩))

/-- The matcher on an exactly-`n` class repetition: it matches exactly
when the next `n` characters exist and satisfy the class. -/
theorem matchRE_repExact (p : Char → Bool) : ∀ (n : Nat) (before s : List Char),
    matchRE (.rep (.cls p) n (some n)) before s =
      if n ≤ s.length ∧ (s.take n).all p then [n] else [] := by
  intro n
  induction n with
  | zero =>
    intro before s
    rw [matchRE_rep]
    simp
  | succ n ih =>
    intro before s
    rw [matchRE_rep]
    rw [if_neg (by simp)]
    simp only [Nat.succ_ne_zero, if_false]
    rw [matchRE_cls]
    cases s with
    | nil => simp
    | cons c t =>
      by_cases hp : p c
      · simp only [if_pos hp]
        have hdec : decOpt (some (n + 1)) = some n := by simp [decOpt]
        have harg : (0 < 1 ∧ 1 ≤ (c :: t).length) := by simp
        simp only [List.flatMap_cons, List.flatMap_nil, List.append_nil, if_pos harg,
          Nat.add_sub_cancel, hdec]
        rw [show ((c :: t).take 1).reverse ++ before = c :: before from by simp]
        rw [show (c :: t).drop 1 = t from rfl]
        rw [ih (c :: before) t]
        by_cases hcond : n ≤ t.length ∧ (t.take n).all p
        · rw [if_pos hcond, if_pos (by
            simp only [List.length_cons, List.take_succ_cons, List.all_cons]
            exact ⟨by omega, by simp [hp, hcond.2]⟩)]
          simp [Nat.add_comm]
        · rw [if_neg hcond, if_neg (by
            simp only [List.length_cons, List.take_succ_cons, List.all_cons]
            rintro ⟨h1, h2⟩
            simp only [Bool.and_eq_true] at h2
            exact hcond ⟨by omega, h2.2⟩)]
          simp
      · simp only [if_neg hp]
        rw [if_neg (by
          simp only [List.length_cons, List.take_succ_cons, List.all_cons]
          rintro ⟨h1, h2⟩
          simp only [Bool.and_eq_true] at h2
          exact hp h2.1)]
        simp

/-- The matcher on the common hash shape: it matches exactly when a
word boundary holds here, the next `n` characters are hex digits, and a
word boundary holds after them. -/
theorem matchRE_hash (n : Nat) (before s : List Char) :
    matchRE (hashRE n) before s =
      if atBoundary before s ∧ n ≤ s.length ∧ (s.take n).all isHexAny ∧
         atBoundary ((s.take n).reverse ++ before) (s.drop n)
      then [n] else [] := by
  show matchRE (RE.seq .wb (RE.seq (hexn n) (RE.seq .wb RE.eps))) before s = _
  rw [matchRE_seq, matchRE_wb]
  by_cases hb : atBoundary before s
  · rw [if_pos hb]
    simp only [List.flatMap_cons, List.flatMap_nil, List.append_nil, List.take_zero,
      List.reverse_nil, List.nil_append, List.drop_zero]
    rw [matchRE_seq]
    unfold hexn
    rw [matchRE_repExact]
    by_cases hc : n ≤ s.length ∧ (s.take n).all isHexAny
    · rw [if_pos hc]
      simp only [List.flatMap_cons, List.flatMap_nil, List.append_nil]
      rw [matchRE_seq, matchRE_wb]
      by_cases hb2 : atBoundary ((s.take n).reverse ++ before) (s.drop n)
      · rw [if_pos hb2]
        rw [if_pos ⟨hb, hc.1, hc.2, hb2⟩]
        simp [matchRE_eps]
      · rw [if_neg hb2]
        rw [if_neg (by
          rintro ⟨-, -, -, h4⟩
          exact hb2 h4)]
        simp
    · rw [if_neg hc]
      rw [if_neg (by
        rintro ⟨-, h2, h3, -⟩
        exact hc ⟨h2, h3⟩)]
      simp
  · rw [if_neg hb]
    rw [if_neg (by
      rintro ⟨h1, -⟩
      exact hb h1)]
    simp

/-- After any position whose previous character is a word character, an
all-hex remainder admits no hash match anywhere. -/
theorem hash_scan_word (n : Nat) (hn : 0 < n) : ∀ (s before : List Char),
    (∀ c ∈ s, isHexAny c = true) → headIsWord before = true →
    scanIter (hashRE n) before s = [] := by
  intro s
  induction s with
  | nil =>
    intro before hs hw
    apply scanIter_nil_nomatch
    rw [matchRE_hash]
    rw [if_neg (by
      rintro ⟨-, h2, -, -⟩
      simp at h2
      omega)]
  | cons c rest ih =>
    intro before hs hw
    have hcw : isWordChar c = true := hex_isWord (hs c (List.mem_cons_self c rest))
    have hnb : matchRE (hashRE n) before (c :: rest) = [] := by
      rw [matchRE_hash]
      rw [if_neg (by
        rintro ⟨h1, -⟩
        unfold atBoundary at h1
        rw [hw] at h1
        rw [show headIsWord (c :: rest) = isWordChar c from rfl, hcw] at h1
        simp at h1)]
    rw [scanIter_cons_nomatch hnb]
    exact ih (c :: before)
      (fun d hd => hs d (List.mem_cons_of_mem c hd))
      (by rw [show headIsWord (c :: before) = isWordChar c from rfl]; exact hcw)

/-- The hash pattern `\b[a-fA-F0-9]{n}\b` on an all-hex line matches
the whole line when its length is exactly `n` and nothing otherwise. -/
theorem hash_findIter (n : Nat) (hn : 0 < n) (line : List Char)
    (hhex : ∀ c ∈ line, isHexAny c = true) :
    findIter (hashRE n) line = if line.length = n then [line] else [] := by
  cases line with
  | nil =>
    rw [if_neg (by simp; omega)]
    apply scanIter_nil_nomatch
    rw [matchRE_hash]
    rw [if_neg (by
      rintro ⟨-, h2, -, -⟩
      simp at h2
      omega)]
  | cons c rest =>
    have hcw : isWordChar c = true := hex_isWord (hhex c (List.mem_cons_self c rest))
    have hb0 : atBoundary [] (c :: rest) = true := by
      unfold atBoundary
      rw [show headIsWord ([] : List Char) = false from rfl,
        show headIsWord (c :: rest) = isWordChar c from rfl, hcw]
      rfl
    by_cases hlen : (c :: rest).length = n
    · have htake : (c :: rest).take n = c :: rest := by
        rw [← hlen]
        exact List.take_length _
      have hdrop : (c :: rest).drop n = [] := by
        rw [← hlen]
        exact List.drop_length _
      have hm : matchRE (hashRE n) [] (c :: rest) = [n] := by
        rw [matchRE_hash]
        rw [if_pos ?_]
        refine ⟨hb0, by omega, ?_, ?_⟩
        · rw [htake]
          exact List.all_eq_true.mpr hhex
        · rw [htake, hdrop]
          unfold atBoundary
          rw [show headIsWord ([] : List Char) = false from rfl]
          cases hrev : (c :: rest).reverse with
          | nil => exact absurd hrev (by simp)
          | cons d ds =>
            rw [show headIsWord (d :: ds ++ []) = isWordChar d from rfl]
            have hd : d ∈ (c :: rest) := by
              rw [← List.mem_reverse, hrev]
              exact List.mem_cons_self d ds
            rw [hex_isWord (hhex d hd)]
            rfl
      rw [if_pos hlen, findIter, scanIter_cons_match hm (by omega)]
      rw [htake, hdrop]
      have hend : scanIter (hashRE n) ((c :: rest).reverse ++ []) [] = [] := by
        apply scanIter_nil_nomatch
        rw [matchRE_hash]
        rw [if_neg (by
          rintro ⟨-, h2, -, -⟩
          simp at h2
          omega)]
      rw [hend]
    · have hm : matchRE (hashRE n) [] (c :: rest) = [] := by
        rw [matchRE_hash]
        rw [if_neg ?_]
        rintro ⟨-, h2, -, h4⟩
        have hlt : n < (c :: rest).length := by
          rcases Nat.lt_or_ge n (c :: rest).length with h | h
          · exact h
          · exact absurd (le_antisymm h2 h) (fun hh => hlen hh.symm)
        have hdrop_ne : (c :: rest).drop n ≠ [] := by
          intro hd
          have h5 : ((c :: rest).drop n).length = (c :: rest).length - n :=
            List.length_drop n (c :: rest)
          rw [hd] at h5
          simp only [List.length_nil, List.length_cons] at h5
          simp only [List.length_cons] at hlt
          omega
        unfold atBoundary at h4
        have htake_ne : ((c :: rest).take n).reverse ≠ [] := by
          simp only [ne_eq, List.reverse_eq_nil_iff]
          intro ht
          have := congrArg List.length ht
          simp only [List.length_take, List.length_nil] at this
          omega
        cases hrev : ((c :: rest).take n).reverse with
        | nil => exact htake_ne hrev
        | cons d ds =>
          rw [hrev] at h4
          have hd : d ∈ (c :: rest) :=
            List.take_subset n (c :: rest) (by
              rw [← List.mem_reverse, hrev]
              exact List.mem_cons_self d ds)
          rw [show headIsWord (d :: ds ++ []) = isWordChar d from rfl] at h4
          rw [hex_isWord (hhex d hd)] at h4
          cases hdropv : (c :: rest).drop n with
          | nil => exact hdrop_ne hdropv
          | cons e es =>
            rw [hdropv] at h4
            have he : e ∈ (c :: rest) :=
              List.drop_subset n (c :: rest) (by
                rw [hdropv]
                exact List.mem_cons_self e es)
            rw [show headIsWord (e :: es) = isWordChar e from rfl] at h4
            rw [hex_isWord (hhex e he)] at h4
            simp at h4
      rw [if_neg hlen, findIter, scanIter_cons_nomatch hm]
      exact hash_scan_word n hn rest [c]
        (fun d hd => hhex d (List.mem_cons_of_mem c hd))
        (by rw [show headIsWord [c] = isWordChar c from rfl]; exact hcw)

/-- When some detector fired, the fallback is skipped. -/
theorem extract_eq_raw {line : List Char} (h : rawMatches line ≠ []) :
    extract_all_matches line = rawMatches line := by
  unfold extract_all_matches
  cases hr : rawMatches line with
  | nil => exact absurd hr h
  | cons q qs => simp

/-- C2: on an all-hex line of length 64 the battery emits a SHA256Hash
candidate and no MD5Hash candidate; on an all-hex line of length 32 it
emits an MD5Hash candidate and, among the hash kinds, no SHA1Hash,
SHA256Hash or SHA512Hash candidate. -/
theorem spec_c2 (line : List Char) (hhex : ∀ c ∈ line, isHexAny c = true) :
    (line.length = 64 →
      ((StringType.SHA256HashString, line) ∈ extract_all_matches line ∧
       ∀ t, (StringType.MD5HashString, t) ∉ extract_all_matches line)) ∧
    (line.length = 32 →
      ((StringType.MD5HashString, line) ∈ extract_all_matches line ∧
       ∀ t, (StringType.SHA1HashString, t) ∉ extract_all_matches line ∧
         (StringType.SHA256HashString, t) ∉ extract_all_matches line ∧
         (StringType.SHA512HashString, t) ∉ extract_all_matches line)) := by
  have h32 : findIter MD5_REGEX line = if line.length = 32 then [line] else [] :=
    hash_findIter 32 (by omega) line hhex
  have h40 : findIter SHA1_REGEX line = if line.length = 40 then [line] else [] :=
    hash_findIter 40 (by omega) line hhex
  have h64 : findIter SHA256_REGEX line = if line.length = 64 then [line] else [] :=
    hash_findIter 64 (by omega) line hhex
  have h128 : findIter SHA512_REGEX line = if line.length = 128 then [line] else [] :=
    hash_findIter 128 (by omega) line hhex
  constructor
  · intro hl
    have hmemraw : (StringType.SHA256HashString, line) ∈ rawMatches line := by
      rw [mem_rawMatches_iff]
      simp [h64, hl]
    have hne : rawMatches line ≠ [] := List.ne_nil_of_mem hmemraw
    rw [extract_eq_raw hne]
    refine ⟨hmemraw, ?_⟩
    intro t ht
    rw [mem_rawMatches_iff] at ht
    simp [h32, hl] at ht
  · intro hl
    have hmemraw : (StringType.MD5HashString, line) ∈ rawMatches line := by
      rw [mem_rawMatches_iff]
      simp [h32, hl]
    have hne : rawMatches line ≠ [] := List.ne_nil_of_mem hmemraw
    rw [extract_eq_raw hne]
    refine ⟨hmemraw, ?_⟩
    intro t
    refine ⟨?_, ?_, ?_⟩
    · intro ht
      rw [mem_rawMatches_iff] at ht
      simp [h40, hl] at ht
    · intro ht
      rw [mem_rawMatches_iff] at ht
      simp [h64, hl] at ht
    · intro ht
      rw [mem_rawMatches_iff] at ht
      simp [h128, hl] at ht

/-- Witness for C2 at the 64-character all-hex line of repeated `a`. -/
theorem spec_c2_witness :
    (∀ c ∈ List.replicate 64 'a', isHexAny c = true) ∧
    ((StringType.SHA256HashString, List.replicate 64 'a') ∈
        extract_all_matches (List.replicate 64 'a') ∧
     ∀ t, (StringType.MD5HashString, t) ∉ extract_all_matches (List.replicate 64 'a')) :=
  ⟨by decide, (spec_c2 (List.replicate 64 'a') (by decide)).1 (by decide)⟩

/-- Everything the scanner emits is a contiguous substring of the
scanned remainder. -/
theorem scanFuel_sub : ∀ (f : Nat) (r : RE) (before s t : List Char),
    t ∈ scanFuel f r before s → t <:+: s := by
  intro f
  induction f with
  | zero =>
    intro r before s t h
    simp [scanFuel] at h
  | succ f ih =>
    intro r before s t h
    rw [scanFuel_succ] at h
    cases hm : matchRE r before s with
    | nil =>
      rw [hm] at h
      cases s with
      | nil => simp at h
      | cons c rest =>
        have h2 : t ∈ scanFuel f r (c :: before) rest := h
        exact ((ih r (c :: before) rest t h2).trans (List.suffix_cons c rest).isInfix)
    | cons n tl =>
      rw [hm] at h
      by_cases hn : n = 0
      · subst hn
        cases s with
        | nil =>
          have h2 : t ∈ [([] : List Char)] := h
          simp only [List.mem_singleton] at h2
          rw [h2]
        | cons c rest =>
          have h2 : t ∈ [] :: scanFuel f r (c :: before) rest := h
          rcases List.mem_cons.mp h2 with h3 | h3
          · rw [h3]
            exact List.nil_infix
          · exact ((ih r (c :: before) rest t h3).trans (List.suffix_cons c rest).isInfix)
      · cases s with
        | nil =>
          have h2 : t ∈ (if n = 0 then [([] : List Char)] else []) := h
          rw [if_neg hn] at h2
          simp at h2
        | cons c rest =>
          have h2 : t ∈ (if n = 0 then [] :: scanFuel f r (c :: before) rest
              else ((c :: rest).take n) ::
                scanFuel f r (((c :: rest).take n).reverse ++ before)
                  ((c :: rest).drop n)) := h
          rw [if_neg hn] at h2
          rcases List.mem_cons.mp h2 with h3 | h3
          · rw [h3]
            exact (List.take_prefix n (c :: rest)).isInfix
          · exact ((ih r _ ((c :: rest).drop n) t h3).trans
              (List.drop_suffix n (c :: rest)).isInfix)

/-- Every match `find_iter` reports is a contiguous substring of the
line. -/
theorem findIter_sub {r : RE} {line t : List Char} (h : t ∈ findIter r line) :
    t <:+: line :=
  scanFuel_sub (line.length + 1) r [] line t h

/-- C9: every candidate's text occurs contiguously inside the line, and
candidates of the whole-line kinds (the nine heuristics and the Regular
fallback) carry exactly the line. -/
theorem spec_c9 (line : List Char) (p : StringType × Text)
    (hp : p ∈ extract_all_matches line) :
    p.2 <:+: line ∧
    (p.1 ∈ ([.CppExceptionString, .PythonTracebackString, .JavaStackTraceString,
        .JavaScriptErrorString, .GoPanicString, .RustPanicString, .JSONString, .XMLString,
        .JunkString, .RegularString] : List StringType) → p.2 = line) := by
  unfold extract_all_matches at hp
  by_cases hraw : (rawMatches line).isEmpty
  · simp only [hraw, if_pos, List.mem_singleton] at hp
    rw [hp]
    exact ⟨List.infix_refl line, fun _ => rfl⟩
  · simp only [hraw, Bool.false_eq_true, if_false] at hp
    obtain ⟨k, t⟩ := p
    dsimp only
    have hp2 : (k, t) ∈ rawMatches line := hp
    rw [mem_rawMatches_iff] at hp2
    rcases hp2 with ⟨rfl, ht⟩ | ⟨rfl, ht⟩ | ⟨rfl, ht⟩ | ⟨rfl, ht⟩ | ⟨rfl, ht⟩ | ⟨rfl, ht⟩ |
      ⟨rfl, ht⟩ | ⟨rfl, ht⟩ | ⟨rfl, ht⟩ | ⟨rfl, ht⟩ | ⟨rfl, ht⟩ | ⟨rfl, ht⟩ | ⟨rfl, ht⟩ |
      ⟨rfl, ht⟩ | ⟨rfl, ht⟩ | ⟨rfl, ht⟩ | ⟨rfl, ht⟩ | ⟨rfl, ht⟩ | ⟨rfl, ht⟩ | ⟨rfl, ht⟩ |
      ⟨rfl, ht⟩ | ⟨rfl, ht⟩ | ⟨hb, rfl, rfl⟩ | ⟨hb, rfl, rfl⟩ | ⟨hb, rfl, rfl⟩ |
      ⟨hb, rfl, rfl⟩ | ⟨hb, rfl, rfl⟩ | ⟨hb, rfl, rfl⟩ | ⟨hb, rfl, rfl⟩ | ⟨hb, rfl, rfl⟩ |
      ⟨hb, rfl, rfl⟩ <;>
      first
      | exact ⟨findIter_sub ht, fun hmem => absurd hmem (by decide)⟩
      | exact ⟨List.infix_refl _, fun _ => rfl⟩

/-- Witness for C9 at the line `hi`, whose only candidate is the
Regular fallback. -/
theorem spec_c9_witness :
    ((StringType.RegularString, "hi".toList) ∈ extract_all_matches "hi".toList) ∧
    ("hi".toList <:+: "hi".toList ∧
     (StringType.RegularString ∈ ([.CppExceptionString, .PythonTracebackString,
        .JavaStackTraceString, .JavaScriptErrorString, .GoPanicString, .RustPanicString,
        .JSONString, .XMLString, .JunkString, .RegularString] : List StringType) →
      "hi".toList = "hi".toList)) :=
  ⟨by decide, spec_c9 "hi".toList (StringType.RegularString, "hi".toList) (by decide)⟩

theorem flatMapCongr {α β : Type} (l : List α) (f g : α → List β)
    (h : ∀ x ∈ l, f x = g x) : l.flatMap f = l.flatMap g := by
  induction l with
  | nil => rfl
  | cons x rest ih =>
    simp only [List.flatMap_cons]
    rw [h x (List.mem_cons_self x rest), ih (fun y hy => h y (List.mem_cons_of_mem x hy))]

/-- C4 (amended): the aggregation is a function of input and
configuration, so two runs can only differ through the per-kind
`HashSet` iteration orders; in counts-only (`analyze`) mode, or
whenever the two runs iterate every set in the same order, the two
reports are identical character for character. -/
theorem spec_c4 (a : Args) (input : List (List Char))
    (e1 e2 : StringType → List Text → List Text) (h1 : validEnum e1) (h2 : validEnum e2)
    (hcase : a.analyze = true ∨ e1 = e2) :
    runReport a input e1 = runReport a input e2 := by
  rcases hcase with ha | he
  · unfold runReport reportOf
    rw [ha]
    have hlen : ∀ k, (e1 k (processLines a input k)).length =
        (e2 k (processLines a input k)).length := by
      intro k
      rw [(h1 k (processLines a input k)).length_eq,
        (h2 k (processLines a input k)).length_eq]
    have hemp : ∀ k, (e1 k (processLines a input k)).isEmpty =
        (e2 k (processLines a input k)).isEmpty := by
      intro k
      have := hlen k
      cases hx : (e1 k (processLines a input k)) with
      | nil =>
        rw [hx] at this
        cases hy : (e2 k (processLines a input k)) with
        | nil => rfl
        | cons q qs => rw [hy] at this; simp at this
      | cons q qs =>
        rw [hx] at this
        cases hy : (e2 k (processLines a input k)) with
        | nil => rw [hy] at this; simp at this
        | cons w ws => rfl
    have hsum : printSummaryLines (fun k => e1 k (processLines a input k)) true a.max_items =
        printSummaryLines (fun k => e2 k (processLines a input k)) true a.max_items := by
      unfold printSummaryLines
      apply flatMapCongr
      intro k _
      unfold kindBlock
      rw [hemp k, hlen k]
      simp
    have hfin : printFinalLines (fun k => e1 k (processLines a input k)) =
        printFinalLines (fun k => e2 k (processLines a input k)) := by
      unfold printFinalLines
      rw [List.filter_congr (fun k _ => by rw [hemp k])]
    rw [hsum, hfin]
  · rw [he]

/-- Witness for C4 in analyze mode with two different enumeration
orders. -/
theorem spec_c4_witness :
    runReport (Args.mk true none false [] []) [['a'], ['b']] (fun _ l => l) =
      runReport (Args.mk true none false [] []) [['a'], ['b']] (fun _ l => l.reverse) :=
  spec_c4 (Args.mk true none false [] []) [['a'], ['b']] (fun _ l => l)
    (fun _ l => l.reverse) (fun _ l => List.Perm.refl l) (fun _ l => List.reverse_perm l)
    (Or.inl rfl)

/-- Counterexample to C4 as stated: under the default configuration,
the input of the two lines `a` and `b` aggregates both texts into the
Regular set, and two valid `HashSet` iteration orders of that same
final store print the strings in different orders, giving two different
reports for identical input and configuration. -/
theorem spec_c4_cex :
    validEnum (fun _ l => l) ∧ validEnum (fun _ l => l.reverse) ∧
    runReport (Args.mk false none false [] []) [['a'], ['b']] (fun _ l => l) ≠
      runReport (Args.mk false none false [] []) [['a'], ['b']] (fun _ l => l.reverse) :=
  ⟨fun _ l => List.Perm.refl l, fun _ l => List.reverse_perm l, by decide⟩

end Strbin
